import Mathlib

/-!
Verification development for the pb-scan technology-inventory scanner.

The definitions below are a shallow embedding of the Rust sources:
  scanner/src/languages.rs     (extension tables, byte accumulation, percentages)
  scanner/src/frameworks.rs    (indicator table, signal maps, sorted entries)
  scanner/src/structures.rs    (structure tags)
  scanner/src/dependencies.rs  (per-ecosystem manifest detectors)
  scanner/src/scan.rs          (walk loops, hidden indicators, aggregation)

Modelling conventions:
  * Rust HashMap String to String / String to u64 accumulators are modelled as
    association lists with unique keys; the list order stands for the
    iteration order (which for a Rust HashMap is arbitrary).
  * f64 arithmetic in percentage computation is modelled as exact rational
    arithmetic, matching the formula the code computes; f64 round
    (round half away from zero) is modelled by rustRound.
  * Rust slice sort_by / Vec sort are stable sorts; a stable sort for a total
    preorder has a unique result, so they are modelled by a stable insertion
    sort with the same comparator.
  * Filesystem reads that can fail (missing or unreadable manifests, metadata
    errors) are modelled with Option / explicit flags, mirroring the error-equals-absent handling of the code.
-/

/-- Map file extensions to language names.
Direct translation of extension_to_language, scanner/src/languages.rs lines 7-48. -/
def extension_to_language (ext : String) : Option String :=
  match ext with
  | "py" => some "Python"
  | "js" => some "JavaScript"
  | "jsx" => some "JavaScript"
  | "ts" => some "TypeScript"
  | "tsx" => some "TypeScript"
  | "rs" => some "Rust"
  | "go" => some "Go"
  | "rb" => some "Ruby"
  | "java" => some "Java"
  | "kt" => some "Kotlin"
  | "swift" => some "Swift"
  | "c" => some "C"
  | "h" => some "C"
  | "cpp" | "cc" | "cxx" => some "C++"
  | "hpp" => some "C++"
  | "cs" => some "C#"
  | "php" => some "PHP"
  | "scala" => some "Scala"
  | "r" | "R" => some "R"
  | "dart" => some "Dart"
  | "lua" => some "Lua"
  | "ex" | "exs" => some "Elixir"
  | "erl" | "hrl" => some "Erlang"
  | "hs" => some "Haskell"
  | "ml" | "mli" => some "OCaml"
  | "clj" | "cljs" => some "Clojure"
  | "jl" => some "Julia"
  | "zig" => some "Zig"
  | "svelte" => some "Svelte"
  | "vue" => some "Vue"
  | "html" | "htm" => some "HTML"
  | "css" => some "CSS"
  | "scss" | "sass" => some "SCSS"
  | "less" => some "Less"
  | "sql" => some "SQL"
  | "sh" | "bash" | "zsh" => some "Shell"
  | "ps1" => some "PowerShell"
  | _ => none

/-- Binary file extensions that should be skipped.
Direct translation of is_binary_extension, scanner/src/languages.rs lines 51-100. -/
def is_binary_extension (ext : String) : Bool :=
  match ext with
  | "png" | "jpg" | "jpeg" | "gif" | "bmp" | "ico" | "svg" | "webp"
  | "woff" | "woff2" | "ttf" | "eot" | "otf"
  | "mp3" | "mp4" | "wav" | "avi" | "mov" | "mkv"
  | "zip" | "tar" | "gz" | "bz2" | "xz" | "7z" | "rar"
  | "exe" | "dll" | "so" | "dylib" | "a" | "o" | "obj" | "wasm"
  | "pyc" | "pyo" | "class"
  | "pdf" | "doc" | "docx" | "xls" | "xlsx"
  | "db" | "sqlite" | "sqlite3" => true
  | _ => false

/-- Byte-count-by-language accumulator: HashMap String u64 of the code,
modelled as an association list whose order is the iteration order of the map. -/
abbrev BytesMap := List (String × Nat)

/-- Signal accumulator: HashMap String String (display name to category). -/
abbrev SigMap := List (String × String)

/-- HashMap insert: replace the value if the key is present, else add the key. -/
def insertSig : SigMap → String → String → SigMap
  | [], k, v => [(k, v)]
  | p :: rest, k, v => if p.1 = k then (k, v) :: rest else p :: insertSig rest k v

/-- HashMap lookup on the signal accumulator. -/
def lookupSig : SigMap → String → Option String
  | [], _ => none
  | p :: rest, k => if p.1 = k then some p.2 else lookupSig rest k

/-- The entry-or-insert-then-add-assign update of the byte accumulator:
models the expression star-entry-or-insert-0 plus-equals size at
scanner/src/languages.rs line 106. -/
def addBytes : BytesMap → String → Nat → BytesMap
  | [], k, n => [(k, n)]
  | p :: rest, k, n => if p.1 = k then (p.1, p.2 + n) :: rest else p :: addBytes rest k n

/-- Bytes recorded for a language, 0 when the language is absent from the map. -/
def lookupBytes : BytesMap → String → Nat
  | [], _ => 0
  | p :: rest, k => if p.1 = k then p.2 else lookupBytes rest k

/-- Accumulate bytes per language from the extension of a file (as produced by the
standard path extension accessor) and its metadata size.
Translation of record_language, scanner/src/languages.rs lines 103-109. -/
def record_language (ext : Option String) (size : Nat) (m : BytesMap) : BytesMap :=
  match ext with
  | some e =>
    match extension_to_language e with
    | some lang => addBytes m lang size
    | none => m
  | none => m

/-- The f64 round operation of Rust (round half away from zero), modelled on
exact rationals. -/
def rustRound (q : ℚ) : ℤ :=
  if 0 ≤ q then ⌊q + 1/2⌋ else -⌊-q + 1/2⌋

/-- One entry of the languages list; percentage is the f64 of the code,
modelled as an exact rational. -/
structure LanguageEntry where
  name : String
  category : String
  percentage : ℚ
deriving DecidableEq, Repr

/-- One detected signal: display name and category.
Translation of SignalEntry, scanner/src/output.rs lines 18-22. -/
structure SignalEntry where
  name : String
  category : String
deriving DecidableEq, Repr

/-- Stable insertion of an element into a list: the element goes in front of
the first position it may precede. -/
def insertLe (le : α → α → Bool) (x : α) : List α → List α
  | [] => [x]
  | y :: ys => if le x y then x :: y :: ys else y :: insertLe le x ys

/-- Stable sort by a total preorder. The slice sort_by and Vec sort of Rust are
stable sorts, and the output of a stable sort is uniquely determined by the
comparator, so this insertion sort is an exact model of them. -/
def sortByStable (le : α → α → Bool) : List α → List α
  | [] => []
  | x :: xs => insertLe le x (sortByStable le xs)

/-- Comparator used at scanner/src/languages.rs line 125: descending by
percentage, no tie-break. -/
def langLe (a b : LanguageEntry) : Bool :=
  decide (b.percentage ≤ a.percentage)

/-- Total classified bytes: sum of the values of the byte accumulator. -/
def totalBytes (m : BytesMap) : Nat :=
  (m.map Prod.snd).sum

/-- Convert accumulated byte counts into the sorted LanguageEntry list.
Translation of build_language_list, scanner/src/languages.rs lines 112-127. -/
def build_language_list (m : BytesMap) : List LanguageEntry :=
  let total := totalBytes m
  if total = 0 then []
  else
    let entries := m.map (fun p =>
      { name := p.1
        category := "language"
        percentage := (rustRound ((p.2 : ℚ) / (total : ℚ) * 1000) : ℚ) / 10 })
    sortByStable langLe entries

/-- Code-point comparison of char lists; Rust String Ord is UTF-8 byte-wise
lexicographic, which coincides with code-point lexicographic order. -/
def charListCmp : List Char → List Char → Ordering
  | [], [] => .eq
  | [], _ :: _ => .lt
  | _ :: _, [] => .gt
  | a :: as, b :: bs =>
    if a.toNat < b.toNat then .lt
    else if b.toNat < a.toNat then .gt
    else charListCmp as bs

/-- Rust String Ord, modelled on the underlying character lists. -/
def strCmp (a b : String) : Ordering :=
  charListCmp a.toList b.toList

/-- Non-strict string order used by the stable sorts. -/
def strLeB (a b : String) : Bool :=
  strCmp a b ≠ .gt

/-- Comparator of the derived SignalEntry Ord: name first, then category. -/
def sigLe (a b : SignalEntry) : Bool :=
  match strCmp a.name b.name with
  | .lt => true
  | .gt => false
  | .eq => strLeB a.category b.category

/-- Convert a signal accumulator into the sorted SignalEntry vector.
Translation of into_sorted_entries, scanner/src/frameworks.rs lines 68-78. -/
def into_sorted_entries (m : SigMap) : List SignalEntry :=
  sortByStable sigLe (m.map (fun p => { name := p.1, category := p.2 }))

/-- Indicator table: file or directory name, display name, category.
Direct translation of FRAMEWORK_INDICATORS, scanner/src/frameworks.rs lines 7-48. -/
def FRAMEWORK_INDICATORS : List (String × String × String) :=
  [ ("Dockerfile", "Docker", "infrastructure")
  , ("docker-compose.yml", "Docker Compose", "infrastructure")
  , ("docker-compose.yaml", "Docker Compose", "infrastructure")
  , (".github/workflows", "GitHub Actions", "infrastructure")
  , (".gitlab-ci.yml", "GitLab CI", "infrastructure")
  , (".circleci", "CircleCI", "infrastructure")
  , ("Jenkinsfile", "Jenkins", "infrastructure")
  , ("terraform", "Terraform", "infrastructure")
  , ("kubernetes", "Kubernetes", "infrastructure")
  , ("k8s", "Kubernetes", "infrastructure")
  , ("helm", "Helm", "infrastructure")
  , (".travis.yml", "Travis CI", "infrastructure")
  , ("netlify.toml", "Netlify", "infrastructure")
  , ("vercel.json", "Vercel", "infrastructure")
  , ("fly.toml", "Fly.io", "infrastructure")
  , ("render.yaml", "Render", "infrastructure")
  , ("nginx.conf", "Nginx", "infrastructure")
  , ("Vagrantfile", "Vagrant", "infrastructure")
  , ("ansible", "Ansible", "infrastructure")
  , (".eslintrc.js", "ESLint", "tool")
  , (".eslintrc.json", "ESLint", "tool")
  , ("tailwind.config.js", "Tailwind CSS", "framework")
  , ("tailwind.config.ts", "Tailwind CSS", "framework")
  , ("tsconfig.json", "TypeScript", "language")
  , ("webpack.config.js", "Webpack", "tool")
  , ("vite.config.ts", "Vite", "tool")
  , ("vite.config.js", "Vite", "tool")
  , (".prettierrc", "Prettier", "tool")
  , ("jest.config.js", "Jest", "tool")
  , ("jest.config.ts", "Jest", "tool")
  , ("pytest.ini", "pytest", "tool")
  , ("pyproject.toml", "Python Package", "tool")
  , ("Cargo.toml", "Rust", "language")
  , ("go.mod", "Go", "language")
  , ("Gemfile", "Ruby", "language")
  , ("composer.json", "PHP", "language")
  , ("build.gradle", "Gradle", "tool")
  , ("pom.xml", "Maven", "tool") ]

/-- Detect frameworks and infrastructure from top-level file and directory
names; infrastructure-category matches go to the infra map, all others to the
frameworks map.
Translation of detect_file_indicators, scanner/src/frameworks.rs lines 51-65. -/
def detect_file_indicators (top_level_names : List String) (acc : SigMap × SigMap) :
    SigMap × SigMap :=
  FRAMEWORK_INDICATORS.foldl (fun acc t =>
    if t.1 ∈ top_level_names then
      if t.2.2 = "infrastructure" then (acc.1, insertSig acc.2 t.2.1 t.2.2)
      else (insertSig acc.1 t.2.1 t.2.2, acc.2)
    else acc) acc

/-- Detect project structures from top-level names; tags are pushed in a fixed
order and then sorted.
Translation of detect_structures, scanner/src/structures.rs lines 3-26. -/
def detect_structures (top_level_names : List String) : List String :=
  let structures :=
    (if "src" ∈ top_level_names then ["src_layout"] else []) ++
    (if "packages" ∈ top_level_names ∨ "libs" ∈ top_level_names then ["monorepo"] else []) ++
    (if "setup.py" ∈ top_level_names ∨ "pyproject.toml" ∈ top_level_names then
      ["python_package"] else []) ++
    (if "package.json" ∈ top_level_names then ["node_project"] else []) ++
    (if "Makefile" ∈ top_level_names then ["makefile"] else [])
  sortByStable strLeB structures

/-- Directories to skip even without a .gitignore.
Direct translation of SKIP_DIRS, scanner/src/scan.rs lines 13-21. -/
def SKIP_DIRS : List String :=
  ["node_modules", "vendor", "__pycache__", "target", "build", "dist", ".git"]

/-- Hidden paths that are framework indicators, checked directly on disk.
Direct translation of HIDDEN_INDICATORS, scanner/src/scan.rs lines 25-33. -/
def HIDDEN_INDICATORS : List String :=
  [".github/workflows", ".gitlab-ci.yml", ".circleci", ".eslintrc.js",
   ".eslintrc.json", ".prettierrc", ".travis.yml"]

/-- One entry yielded by the gitignore-aware walker (already filtered by the
hidden-file suppression and ignore rules of the walker, and with iteration errors
silently dropped, as the walker-flatten call in the code does).
relPath is the path relative to the scan root as components; ext is the
result of the standard path-extension accessor for the entry; metaOk records
whether the metadata call succeeds. -/
structure FsEntry where
  relPath : List String
  isDir : Bool
  size : Nat
  ext : Option String
  metaOk : Bool
deriving DecidableEq, Repr

/-- One step of the walk loop of scan_directory, scanner/src/scan.rs lines
58-102, carried out on the pair of accumulators (top-level names, byte map):
skip the root itself, record top-level entries, skip directories (with the
SKIP_DIRS check reproduced verbatim, both branches falling through to the
directory skip), skip binary files, then count bytes when metadata succeeds. -/
def scanStep (acc : List String × BytesMap) (e : FsEntry) : List String × BytesMap :=
  if e.relPath = [] then acc
  else
    let names :=
      if e.relPath.length = 1 then
        match e.relPath.getLast? with
        | some n => acc.1 ++ [n]
        | none => acc.1
      else acc.1
    if e.isDir then
      match e.relPath.getLast? with
      | some n => if n ∈ SKIP_DIRS then (names, acc.2) else (names, acc.2)
      | none => (names, acc.2)
    else
      match e.ext with
      | some x =>
        if is_binary_extension x then (names, acc.2)
        else if e.metaOk then (names, record_language (some x) e.size acc.2)
        else (names, acc.2)
      | none =>
        if e.metaOk then (names, record_language none e.size acc.2)
        else (names, acc.2)

/-- The walk loop of scan_directory with the SKIP_DIRS conditional removed
(scanner/src/scan.rs lines 83-87 deleted); used to show that conditional
has no effect on the scan. -/
def scanStepNoSkip (acc : List String × BytesMap) (e : FsEntry) : List String × BytesMap :=
  if e.relPath = [] then acc
  else
    let names :=
      if e.relPath.length = 1 then
        match e.relPath.getLast? with
        | some n => acc.1 ++ [n]
        | none => acc.1
      else acc.1
    if e.isDir then (names, acc.2)
    else
      match e.ext with
      | some x =>
        if is_binary_extension x then (names, acc.2)
        else if e.metaOk then (names, record_language (some x) e.size acc.2)
        else (names, acc.2)
      | none =>
        if e.metaOk then (names, record_language none e.size acc.2)
        else (names, acc.2)

/-- The byte-map part of one walk-loop step, used to factor the fold. -/
def bytesStep (m : BytesMap) (e : FsEntry) : BytesMap :=
  if e.relPath = [] then m
  else if e.isDir then m
  else
    match e.ext with
    | some x =>
      if is_binary_extension x then m
      else if e.metaOk then record_language (some x) e.size m
      else m
    | none =>
      if e.metaOk then record_language none e.size m
      else m

/-- One step of the combined language walk of scan_directories, scanner/src/
scan.rs lines 167-180: skip directories, skip binary files, count bytes. -/
def mergedStep (m : BytesMap) (e : FsEntry) : BytesMap :=
  if e.isDir then m
  else
    match e.ext with
    | some x =>
      if is_binary_extension x then m
      else if e.metaOk then record_language (some x) e.size m
      else m
    | none =>
      if e.metaOk then record_language none e.size m
      else m

/-- Check for hidden-file indicators that the gitignore-aware walker skips:
each listed dotted path present on disk and not already recorded is pushed
onto the top-level name list.
Translation of check_hidden_indicators, scanner/src/scan.rs lines 36-42. -/
def check_hidden_indicators (existsPath : String → Bool) (top_level_names : List String) :
    List String :=
  HIDDEN_INDICATORS.foldl (fun ns i =>
    if existsPath i ∧ i ∉ ns then ns ++ [i] else ns) top_level_names

/-- File text, modelled as its character list. -/
abbrev Content := List Char

/-- Case-insensitive rendering of file text: to_lowercase of the code
(the contents relevant here are ASCII, where the simple char lowering
agrees with the Rust one). -/
def lowerContent (c : Content) : Content :=
  c.map Char.toLower

/-- Substring containment: str contains of Rust. -/
def containsSub (hay needle : Content) : Bool :=
  decide (needle <:+: hay)

/-- Outcome of reading and structurally parsing a JSON manifest: the file may
be missing or unreadable (read_to_string fails), may fail to parse
(serde_json from_str fails), or parses to a value. -/
inductive ManifestFile (α : Type) where
  | absent
  | malformed
  | parsed (a : α)
deriving DecidableEq

/-- The parts of a parsed package.json the npm detector reads: the key sets of
the dependencies and devDependencies objects, none when the key is missing or
is not an object. -/
structure NpmManifest where
  dependencies : Option (List String)
  devDependencies : Option (List String)
deriving DecidableEq

/-- The parts of a parsed composer.json the PHP detector reads: the key sets
of the require and require-dev objects. -/
structure PhpManifest where
  requireKeys : Option (List String)
  requireDevKeys : Option (List String)
deriving DecidableEq

/-- Per-root filesystem data consumed by the scan: the entry stream yielded by the walker, the direct existence check used for hidden indicators, and the content
of each root-level manifest (none models a missing or unreadable file). -/
structure RootFs where
  entries : List FsEntry
  existsPath : String → Bool
  packageJson : ManifestFile NpmManifest
  requirementsTxt : Option Content
  pyprojectToml : Option Content
  cargoToml : Option Content
  gemfile : Option Content
  goMod : Option Content
  composerJson : ManifestFile PhpManifest

/-- Iterate a keyword table, inserting display name and category for each
keyword the guard accepts; the loop shape shared by every manifest detector. -/
def depFold (table : List (String × String × String)) (g : String → Bool) (m : SigMap) :
    SigMap :=
  table.foldl (fun m t => if g t.1 then insertSig m t.2.1 t.2.2 else m) m

/-- Keyword table of detect_npm, scanner/src/dependencies.rs lines 25-58. -/
def NPM_MAP : List (String × String × String) :=
  [ ("react", "React", "framework")
  , ("react-native", "React Native", "framework")
  , ("next", "Next.js", "framework")
  , ("vue", "Vue", "framework")
  , ("nuxt", "Nuxt", "framework")
  , ("svelte", "Svelte", "framework")
  , ("@angular/core", "Angular", "framework")
  , ("express", "Express", "framework")
  , ("fastify", "Fastify", "framework")
  , ("gatsby", "Gatsby", "framework")
  , ("remix", "Remix", "framework")
  , ("@nestjs/core", "NestJS", "framework")
  , ("koa", "Koa", "framework")
  , ("tailwindcss", "Tailwind CSS", "framework")
  , ("prisma", "Prisma", "tool")
  , ("mongoose", "Mongoose", "tool")
  , ("sequelize", "Sequelize", "tool")
  , ("jest", "Jest", "tool")
  , ("mocha", "Mocha", "tool")
  , ("webpack", "Webpack", "tool")
  , ("vite", "Vite", "tool")
  , ("typescript", "TypeScript", "language")
  , ("three", "Three.js", "framework")
  , ("electron", "Electron", "framework")
  , ("socket.io", "Socket.IO", "framework")
  , ("graphql", "GraphQL", "tool")
  , ("@apollo/client", "Apollo", "framework")
  , ("redis", "Redis", "tool")
  , ("pg", "PostgreSQL", "tool")
  , ("mongodb", "MongoDB", "tool")
  , ("supabase", "Supabase", "tool")
  , ("firebase", "Firebase", "tool") ]

/-- Detect frameworks from package.json dependency keys; a missing or
unparsable file contributes nothing.
Translation of detect_npm, scanner/src/dependencies.rs lines 7-65. -/
def detect_npm (fs : RootFs) (m : SigMap) : SigMap :=
  match fs.packageJson with
  | .absent => m
  | .malformed => m
  | .parsed p =>
    let all_deps := p.dependencies.getD [] ++ p.devDependencies.getD []
    depFold NPM_MAP (fun dep => all_deps.contains dep) m

/-- Keyword table shared by detect_python (scanner/src/dependencies.rs lines
77-96) and detect_pyproject (lines 227-246); the two tables in the source are
character-for-character identical. -/
def PYTHON_MAP : List (String × String × String) :=
  [ ("django", "Django", "framework")
  , ("flask", "Flask", "framework")
  , ("fastapi", "FastAPI", "framework")
  , ("tornado", "Tornado", "framework")
  , ("celery", "Celery", "tool")
  , ("sqlalchemy", "SQLAlchemy", "tool")
  , ("pandas", "pandas", "framework")
  , ("numpy", "NumPy", "framework")
  , ("scipy", "SciPy", "framework")
  , ("scikit-learn", "scikit-learn", "framework")
  , ("tensorflow", "TensorFlow", "framework")
  , ("torch", "PyTorch", "framework")
  , ("pytest", "pytest", "tool")
  , ("pydantic", "Pydantic", "tool")
  , ("requests", "Requests", "tool")
  , ("boto3", "AWS SDK", "tool")
  , ("redis", "Redis", "tool")
  , ("psycopg2", "PostgreSQL", "tool") ]

/-- Detect frameworks from requirements.txt by case-insensitive substring
containment.
Translation of detect_python, scanner/src/dependencies.rs lines 69-103. -/
def detect_python (fs : RootFs) (m : SigMap) : SigMap :=
  match fs.requirementsTxt with
  | none => m
  | some content =>
    let lower := lowerContent content
    depFold PYTHON_MAP (fun key => containsSub lower key.toList) m

/-- Detect frameworks from pyproject.toml by case-insensitive substring
containment, with the same table as detect_python.
Translation of detect_pyproject, scanner/src/dependencies.rs lines 219-253. -/
def detect_pyproject (fs : RootFs) (m : SigMap) : SigMap :=
  match fs.pyprojectToml with
  | none => m
  | some content =>
    let lower := lowerContent content
    depFold PYTHON_MAP (fun key => containsSub lower key.toList) m

/-- Keyword table of detect_rust, scanner/src/dependencies.rs lines 115-127. -/
def RUST_MAP : List (String × String × String) :=
  [ ("actix-web", "Actix Web", "framework")
  , ("axum", "Axum", "framework")
  , ("rocket", "Rocket", "framework")
  , ("tokio", "Tokio", "tool")
  , ("serde", "Serde", "tool")
  , ("diesel", "Diesel", "tool")
  , ("sqlx", "SQLx", "tool")
  , ("leptos", "Leptos", "framework")
  , ("yew", "Yew", "framework")
  , ("tauri", "Tauri", "framework")
  , ("wasm-bindgen", "WebAssembly", "tool") ]

/-- Detect frameworks from Cargo.toml by case-insensitive substring
containment.
Translation of detect_rust, scanner/src/dependencies.rs lines 107-134. -/
def detect_rust (fs : RootFs) (m : SigMap) : SigMap :=
  match fs.cargoToml with
  | none => m
  | some content =>
    let lower := lowerContent content
    depFold RUST_MAP (fun key => containsSub lower key.toList) m

/-- Keyword table of detect_ruby, scanner/src/dependencies.rs lines 146-151. -/
def RUBY_MAP : List (String × String × String) :=
  [ ("rails", "Ruby on Rails", "framework")
  , ("sinatra", "Sinatra", "framework")
  , ("sidekiq", "Sidekiq", "tool")
  , ("rspec", "RSpec", "tool") ]

/-- Detect frameworks from the Gemfile by case-insensitive substring
containment.
Translation of detect_ruby, scanner/src/dependencies.rs lines 138-158. -/
def detect_ruby (fs : RootFs) (m : SigMap) : SigMap :=
  match fs.gemfile with
  | none => m
  | some content =>
    let lower := lowerContent content
    depFold RUBY_MAP (fun key => containsSub lower key.toList) m

/-- Keyword table of detect_go, scanner/src/dependencies.rs lines 169-175. -/
def GO_MAP : List (String × String × String) :=
  [ ("github.com/gin-gonic/gin", "Gin", "framework")
  , ("github.com/gorilla/mux", "Gorilla Mux", "framework")
  , ("github.com/labstack/echo", "Echo", "framework")
  , ("github.com/gofiber/fiber", "Fiber", "framework")
  , ("gorm.io/gorm", "GORM", "tool") ]

/-- Detect frameworks from go.mod by case-sensitive substring containment.
Translation of detect_go, scanner/src/dependencies.rs lines 162-182. -/
def detect_go (fs : RootFs) (m : SigMap) : SigMap :=
  match fs.goMod with
  | none => m
  | some content =>
    depFold GO_MAP (fun key => containsSub content key.toList) m

/-- Keyword table of detect_php, scanner/src/dependencies.rs lines 204-208. -/
def PHP_MAP : List (String × String × String) :=
  [ ("laravel/framework", "Laravel", "framework")
  , ("symfony/symfony", "Symfony", "framework")
  , ("slim/slim", "Slim", "framework") ]

/-- Detect frameworks from composer.json require keys; a missing or
unparsable file contributes nothing.
Translation of detect_php, scanner/src/dependencies.rs lines 186-215. -/
def detect_php (fs : RootFs) (m : SigMap) : SigMap :=
  match fs.composerJson with
  | .absent => m
  | .malformed => m
  | .parsed p =>
    let all_deps := p.requireKeys.getD [] ++ p.requireDevKeys.getD []
    depFold PHP_MAP (fun dep => all_deps.contains dep) m

/-- Run all dependency parsers for a given directory, in source order.
Translation of detect_all, scanner/src/dependencies.rs lines 256-264. -/
def detect_all (fs : RootFs) (m : SigMap) : SigMap :=
  detect_php fs (detect_go fs (detect_ruby fs (detect_rust fs
    (detect_pyproject fs (detect_python fs (detect_npm fs m))))))

/-- The aggregated scan result.
Translation of ScanResult, scanner/src/output.rs lines 3-9. -/
structure ScanResult where
  languages : List LanguageEntry
  frameworks : List SignalEntry
  project_structures : List String
  infrastructure_signals : List SignalEntry
deriving DecidableEq, Repr

/-- Scan a single directory and return aggregated results: walk, recover
hidden indicators, detect file indicators, detect structures, parse
dependency manifests into the frameworks map, then materialize.
Translation of scan_directory, scanner/src/scan.rs lines 45-122. -/
def scan_directory (fs : RootFs) : ScanResult :=
  let walked := fs.entries.foldl scanStep ([], [])
  let top_level_names := check_hidden_indicators fs.existsPath walked.1
  let fwInfra := detect_file_indicators top_level_names ([], [])
  let project_structures := detect_structures top_level_names
  let frameworks := detect_all fs fwInfra.1
  { languages := build_language_list walked.2
    frameworks := into_sorted_entries frameworks
    project_structures := project_structures
    infrastructure_signals := into_sorted_entries fwInfra.2 }

/-- Ordered-set insertion: BTreeSet insert of the code. -/
def btreeInsert : List String → String → List String
  | [], x => [x]
  | y :: ys, x =>
    match strCmp x y with
    | .lt => x :: y :: ys
    | .eq => y :: ys
    | .gt => y :: btreeInsert ys x

/-- Scan multiple directories and merge results: per-root scans are merged by
name for signals and into an ordered set for structures, and the languages
are recomputed from a single combined byte-count walk over all roots.
Translation of scan_directories, scanner/src/scan.rs lines 125-189. -/
def scan_directories (roots : List RootFs) : ScanResult :=
  let merged := roots.foldl (fun acc root =>
    let result := scan_directory root
    ( result.frameworks.foldl (fun m e => insertSig m e.name e.category) acc.1
    , result.infrastructure_signals.foldl (fun m e => insertSig m e.name e.category) acc.2.1
    , result.project_structures.foldl btreeInsert acc.2.2 ))
    (([] : SigMap), ([] : SigMap), ([] : List String))
  let bytes := roots.foldl (fun m root => root.entries.foldl mergedStep m) []
  { languages := build_language_list bytes
    frameworks := into_sorted_entries merged.1
    project_structures := merged.2.2
    infrastructure_signals := into_sorted_entries merged.2.1 }

/-- Apply a list of (name, category) writes to a signal map in order;
captures the insert-per-match loops of all detectors. -/
def runWrites (m : SigMap) (ws : List (String × String)) : SigMap :=
  ws.foldl (fun m kv => insertSig m kv.1 kv.2) m

/-- The writes a keyword-table detector performs: the table rows whose keyword
the guard accepts, projected to (display name, category). -/
def depWrites (table : List (String × String × String)) (g : String → Bool) :
    List (String × String) :=
  (table.filter (fun t => g t.1)).map (fun t => t.2)

/-- The category the last write of a key in a write list assigns, if any. -/
def lastVal (k : String) : List (String × String) → Option String
  | [] => none
  | w :: ws =>
    match lastVal k ws with
    | some v => some v
    | none => if w.1 = k then some w.2 else none

/-- The write list of the whole dependency-detection phase, in the call order
of detect_all: npm, python, pyproject, rust, ruby, go, php. -/
def allDepWrites (fs : RootFs) : List (String × String) :=
  (match fs.packageJson with
   | .absent => []
   | .malformed => []
   | .parsed p =>
     depWrites NPM_MAP (fun dep => (p.dependencies.getD [] ++ p.devDependencies.getD []).contains dep)) ++
  (match fs.requirementsTxt with
   | none => []
   | some content => depWrites PYTHON_MAP (fun key => containsSub (lowerContent content) key.toList)) ++
  (match fs.pyprojectToml with
   | none => []
   | some content => depWrites PYTHON_MAP (fun key => containsSub (lowerContent content) key.toList)) ++
  (match fs.cargoToml with
   | none => []
   | some content => depWrites RUST_MAP (fun key => containsSub (lowerContent content) key.toList)) ++
  (match fs.gemfile with
   | none => []
   | some content => depWrites RUBY_MAP (fun key => containsSub (lowerContent content) key.toList)) ++
  (match fs.goMod with
   | none => []
   | some content => depWrites GO_MAP (fun key => containsSub content key.toList)) ++
  (match fs.composerJson with
   | .absent => []
   | .malformed => []
   | .parsed p =>
     depWrites PHP_MAP (fun dep => (p.requireKeys.getD [] ++ p.requireDevKeys.getD []).contains dep))

/-- Generic form of the file-indicator loop, abstracted over the table. -/
def indicatorFold (table : List (String × String × String)) (top_level_names : List String)
    (acc : SigMap × SigMap) : SigMap × SigMap :=
  table.foldl (fun acc t =>
    if t.1 ∈ top_level_names then
      if t.2.2 = "infrastructure" then (acc.1, insertSig acc.2 t.2.1 t.2.2)
      else (insertSig acc.1 t.2.1 t.2.2, acc.2)
    else acc) acc

/-- Generic form of the hidden-indicator loop, abstracted over the list. -/
def hiddenFold (inds : List String) (existsPath : String → Bool) (ns : List String) :
    List String :=
  inds.foldl (fun ns i => if existsPath i ∧ i ∉ ns then ns ++ [i] else ns) ns

/-- Sum of the reported percentages of the language list of a byte map. -/
def pctSum (m : BytesMap) : ℚ :=
  ((build_language_list m).map (fun e => e.percentage)).sum

/-- A root with no walker entries, no hidden paths, and no manifests. -/
def emptyRootFs : RootFs :=
  { entries := []
    existsPath := fun _ => false
    packageJson := .absent
    requirementsTxt := none
    pyprojectToml := none
    cargoToml := none
    gemfile := none
    goMod := none
    composerJson := .absent }

/-- A top-level regular file with the given name, extension and size. -/
def fileEntry (name : String) (ext : String) (size : Nat) : FsEntry :=
  { relPath := [name], isDir := false, size := size, ext := some ext, metaOk := true }

/-- Root with four classified files of sizes 501, 501, 501, 497: all four
per-mille shares end in an exact half, so all four round up. -/
def fsFourHalves : RootFs :=
  { emptyRootFs with entries :=
      [ fileEntry "a.py" "py" 501
      , fileEntry "b.js" "js" 501
      , fileEntry "c.rb" "rb" 501
      , fileEntry "d.go" "go" 497 ] }

/-- Root holding 700 bytes of Python. -/
def rootSevenHundred : RootFs :=
  { emptyRootFs with entries := [fileEntry "a.py" "py" 700] }

/-- Root holding 300 bytes of Python. -/
def rootThreeHundred : RootFs :=
  { emptyRootFs with entries := [fileEntry "b.py" "py" 300] }

/-- Root with both requirements.txt (containing only numpy) and
pyproject.toml (containing only flask). -/
def fsPyBoth : RootFs :=
  { emptyRootFs with
      requirementsTxt := some "numpy".toList
      pyprojectToml := some "flask".toList }

/-- Root where a file indicator (jest.config.js) and the npm manifest (a jest
dependency) write the same display name. -/
def fsJestBoth : RootFs :=
  { emptyRootFs with
      entries := [fileEntry "jest.config.js" "js" 10]
      packageJson := .parsed { dependencies := some ["jest"], devDependencies := none } }

/-- Walker stream containing a Python file nested under a node_modules
directory (possible whenever no ignore rule excludes it). -/
def entriesUnderNodeModules : List FsEntry :=
  [ { relPath := ["node_modules"], isDir := true, size := 0, ext := none, metaOk := true }
  , { relPath := ["node_modules", "pkg"], isDir := true, size := 0, ext := none, metaOk := true }
  , { relPath := ["node_modules", "pkg", "a.py"], isDir := false, size := 42,
      ext := some "py", metaOk := true } ]

/-- Root whose package.json and composer.json are present but malformed. -/
def fsMalformedJson : RootFs :=
  { emptyRootFs with packageJson := .malformed, composerJson := .malformed }

/-- Root where the hidden path .github/workflows exists on disk. -/
def fsWithWorkflows : RootFs :=
  { emptyRootFs with existsPath := fun p => decide (p = ".github/workflows") }

/-- A top-level binary file (a PNG image). -/
def pngEntry : FsEntry :=
  { relPath := ["logo.png"], isDir := false, size := 99, ext := some "png", metaOk := true }

/-! ### Helper lemmas about the map and sort models -/

theorem lookupSig_insertSig (m : SigMap) (k v j : String) :
    lookupSig (insertSig m k v) j = if j = k then some v else lookupSig m j := by
  induction m with
  | nil =>
    by_cases hjk : j = k
    · simp [insertSig, lookupSig, hjk]
    · simp [insertSig, lookupSig, hjk, Ne.symm hjk]
  | cons p rest ih =>
    obtain ⟨a, b⟩ := p
    by_cases hpk : a = k
    · by_cases hjk : j = k
      · simp [insertSig, lookupSig, hpk, hjk]
      · have hpj : ¬ a = j := fun h => hjk (h ▸ hpk)
        simp [insertSig, lookupSig, hpk, hjk, hpj, Ne.symm hjk]
    · by_cases hpj : a = j
      · have hjk : ¬ j = k := fun h => hpk (hpj.symm ▸ h ▸ rfl)
        simp [insertSig, lookupSig, hpk, hpj, hjk]
      · simp [insertSig, lookupSig, hpk, hpj, ih]

theorem mem_of_lookupSig (m : SigMap) (k v : String) (h : lookupSig m k = some v) :
    (k, v) ∈ m := by
  induction m with
  | nil => simp [lookupSig] at h
  | cons p rest ih =>
    obtain ⟨a, b⟩ := p
    by_cases hpk : a = k
    · simp only [lookupSig, hpk, if_pos] at h
      injection h with h2
      simp [hpk, h2]
    · simp only [lookupSig, hpk, if_neg, not_false_iff] at h
      exact List.mem_cons_of_mem _ (ih h)

theorem lookupBytes_addBytes (m : BytesMap) (k : String) (n : Nat) (j : String) :
    lookupBytes (addBytes m k n) j = lookupBytes m j + (if j = k then n else 0) := by
  induction m with
  | nil =>
    by_cases hjk : j = k
    · simp [addBytes, lookupBytes, hjk]
    · simp [addBytes, lookupBytes, hjk, Ne.symm hjk]
  | cons p rest ih =>
    obtain ⟨a, b⟩ := p
    by_cases hpk : a = k
    · by_cases hjk : j = k
      · simp [addBytes, lookupBytes, hpk, hjk]
      · have hpj : ¬ a = j := fun h => hjk (h ▸ hpk)
        simp [addBytes, lookupBytes, hpk, hjk, hpj, Ne.symm hjk]
    · by_cases hpj : a = j
      · have hjk : ¬ j = k := fun h => hpk (hpj.symm ▸ h ▸ rfl)
        simp [addBytes, lookupBytes, hpk, hpj, hjk]
      · simp [addBytes, lookupBytes, hpk, hpj, ih]

theorem insertLe_perm (le : α → α → Bool) (x : α) (l : List α) :
    (insertLe le x l).Perm (x :: l) := by
  induction l with
  | nil => simp [insertLe]
  | cons y ys ih =>
    by_cases h : le x y
    · simp [insertLe, h]
    · simp only [insertLe, h, if_neg, Bool.not_eq_true]
      exact ((ih.cons y).trans (List.Perm.swap x y ys))

theorem sortByStable_perm (le : α → α → Bool) (l : List α) :
    (sortByStable le l).Perm l := by
  induction l with
  | nil => simp [sortByStable]
  | cons x xs ih => exact (insertLe_perm le x (sortByStable le xs)).trans (ih.cons x)

theorem mem_sortByStable (le : α → α → Bool) (l : List α) (a : α) :
    a ∈ sortByStable le l ↔ a ∈ l :=
  (sortByStable_perm le l).mem_iff

theorem length_sortByStable (le : α → α → Bool) (l : List α) :
    (sortByStable le l).length = l.length :=
  (sortByStable_perm le l).length_eq

/-! ### The write-list view of the detector loops -/

theorem runWrites_append (m : SigMap) (ws vs : List (String × String)) :
    runWrites m (ws ++ vs) = runWrites (runWrites m ws) vs := by
  simp [runWrites, List.foldl_append]

theorem lookupSig_runWrites (m : SigMap) (ws : List (String × String)) (j : String) :
    lookupSig (runWrites m ws) j =
      match lastVal j ws with
      | some v => some v
      | none => lookupSig m j := by
  induction ws generalizing m with
  | nil => simp [runWrites, lastVal]
  | cons w ws ih =>
    show lookupSig (runWrites (insertSig m w.1 w.2) ws) j = _
    rw [ih]
    cases hws : lastVal j ws with
    | some v => simp [lastVal, hws]
    | none =>
      by_cases hjw : j = w.1
      · simp only [lastVal, hws, lookupSig_insertSig]
        rw [if_pos hjw, if_pos hjw.symm]
      · simp only [lastVal, hws, lookupSig_insertSig]
        rw [if_neg hjw, if_neg (fun h => hjw h.symm)]

theorem depFold_eq_runWrites (table : List (String × String × String)) (g : String → Bool)
    (m : SigMap) : depFold table g m = runWrites m (depWrites table g) := by
  induction table generalizing m with
  | nil => simp [depFold, depWrites, runWrites]
  | cons t ts ih =>
    show depFold ts g (if g t.1 then insertSig m t.2.1 t.2.2 else m)
      = runWrites m (depWrites (t :: ts) g)
    by_cases hg : g t.1 = true
    · rw [if_pos hg, ih]
      simp [depWrites, runWrites, List.filter_cons, hg]
    · rw [if_neg hg, ih]
      simp [depWrites, runWrites, List.filter_cons, hg]

theorem detect_all_eq_runWrites (fs : RootFs) (m : SigMap) :
    detect_all fs m = runWrites m (allDepWrites fs) := by
  unfold detect_all allDepWrites
  unfold detect_npm detect_python detect_pyproject detect_rust detect_ruby detect_go detect_php
  cases fs.packageJson <;> cases fs.requirementsTxt <;> cases fs.pyprojectToml <;>
    cases fs.cargoToml <;> cases fs.gemfile <;> cases fs.goMod <;> cases fs.composerJson <;>
    simp [depFold_eq_runWrites, runWrites_append, runWrites]

/-! ### Lemmas about the file-indicator and hidden-indicator loops -/

theorem detect_file_indicators_eq_indicatorFold (names : List String) (acc : SigMap × SigMap) :
    detect_file_indicators names acc = indicatorFold FRAMEWORK_INDICATORS names acc := rfl

theorem check_hidden_indicators_eq_hiddenFold (f : String → Bool) (ns : List String) :
    check_hidden_indicators f ns = hiddenFold HIDDEN_INDICATORS f ns := rfl

theorem indicatorFold_infra_preserve (table : List (String × String × String))
    (names : List String) (acc : SigMap × SigMap) (k v : String)
    (hrows : ∀ i2 c2, (i2, k, c2) ∈ table → c2 = v)
    (hacc : lookupSig acc.2 k = some v) :
    lookupSig (indicatorFold table names acc).2 k = some v := by
  induction table generalizing acc with
  | nil => exact hacc
  | cons t ts ih =>
    obtain ⟨ti, tn, tc⟩ := t
    have hstep : lookupSig ((if ti ∈ names then
        if tc = "infrastructure" then (acc.1, insertSig acc.2 tn tc)
        else (insertSig acc.1 tn tc, acc.2)
      else acc) : SigMap × SigMap).2 k = some v := by
      by_cases hmem : ti ∈ names
      · by_cases hinf : tc = "infrastructure"
        · rw [if_pos hmem, if_pos hinf]
          show lookupSig (insertSig acc.2 tn tc) k = some v
          rw [lookupSig_insertSig]
          by_cases hk : k = tn
          · rw [if_pos hk]
            have hcv := hrows ti tc (by rw [hk]; exact List.mem_cons_self _ _)
            rw [hcv]
          · rw [if_neg hk]; exact hacc
        · rw [if_pos hmem, if_neg hinf]; exact hacc
      · rw [if_neg hmem]; exact hacc
    show lookupSig (indicatorFold ts names _).2 k = some v
    exact ih _ (fun i2 c2 h => hrows i2 c2 (List.mem_cons_of_mem _ h)) hstep

theorem indicatorFold_infra_lookup (table : List (String × String × String))
    (names : List String) (acc : SigMap × SigMap) (i k v : String)
    (hmem : (i, k, v) ∈ table) (hin : i ∈ names) (hinf : v = "infrastructure")
    (hrows : ∀ i2 c2, (i2, k, c2) ∈ table → c2 = v) :
    lookupSig (indicatorFold table names acc).2 k = some v := by
  induction table generalizing acc with
  | nil => cases hmem
  | cons t ts ih =>
    obtain ⟨ti, tn, tc⟩ := t
    rcases List.mem_cons.mp hmem with hhead | htail
    · injection hhead with h1 h23
      injection h23 with h2 h3
      subst h1; subst h2; subst h3
      have hstep : lookupSig ((if i ∈ names then
          if v = "infrastructure" then (acc.1, insertSig acc.2 k v)
          else (insertSig acc.1 k v, acc.2)
        else acc) : SigMap × SigMap).2 k = some v := by
        rw [if_pos hin, if_pos hinf]
        show lookupSig (insertSig acc.2 k v) k = some v
        rw [lookupSig_insertSig, if_pos rfl]
      show lookupSig (indicatorFold ts names _).2 k = some v
      exact indicatorFold_infra_preserve ts names _ k v
        (fun i2 c2 h => hrows i2 c2 (List.mem_cons_of_mem _ h)) hstep
    · show lookupSig (indicatorFold ts names _).2 k = some v
      exact ih _ htail (fun i2 c2 h => hrows i2 c2 (List.mem_cons_of_mem _ h))

theorem mem_hiddenFold_of_mem (inds : List String) (f : String → Bool) (ns : List String)
    (a : String) (h : a ∈ ns) : a ∈ hiddenFold inds f ns := by
  induction inds generalizing ns with
  | nil => exact h
  | cons i is ih =>
    show a ∈ hiddenFold is f _
    refine ih _ ?_
    show a ∈ (if f i = true ∧ i ∉ ns then ns ++ [i] else ns)
    by_cases hc : f i = true ∧ i ∉ ns
    · rw [if_pos hc]; exact List.mem_append_left _ h
    · rw [if_neg hc]; exact h

theorem mem_check_hidden_workflows (f : String → Bool) (ns : List String)
    (hf : f ".github/workflows" = true) :
    ".github/workflows" ∈ check_hidden_indicators f ns := by
  rw [check_hidden_indicators_eq_hiddenFold]
  show ".github/workflows" ∈ hiddenFold
    [".gitlab-ci.yml", ".circleci", ".eslintrc.js", ".eslintrc.json", ".prettierrc",
     ".travis.yml"] f
    (if f ".github/workflows" = true ∧ ".github/workflows" ∉ ns
      then ns ++ [".github/workflows"] else ns)
  apply mem_hiddenFold_of_mem
  by_cases hmem : ".github/workflows" ∈ ns
  · by_cases hc : f ".github/workflows" = true ∧ ".github/workflows" ∉ ns
    · rw [if_pos hc]; exact List.mem_append_left _ hmem
    · rw [if_neg hc]; exact hmem
  · rw [if_pos ⟨hf, hmem⟩]
    exact List.mem_append_right _ (List.mem_singleton.mpr rfl)

/-! ### Lemmas about the walk loops -/

theorem scanStep_snd (acc : List String × BytesMap) (e : FsEntry) :
    (scanStep acc e).2 = bytesStep acc.2 e := by
  unfold scanStep bytesStep
  by_cases hroot : e.relPath = []
  · rw [if_pos hroot, if_pos hroot]
  · rw [if_neg hroot, if_neg hroot]
    by_cases hdir : e.isDir
    · rw [if_pos hdir]
      cases e.relPath.getLast? with
      | none => simp [hdir]
      | some n => by_cases hs : n ∈ SKIP_DIRS
                  · simp [hs, hdir]
                  · simp [hs, hdir]
    · rw [if_neg hdir]
      cases e.ext with
      | none => by_cases hm : e.metaOk <;> simp [hm, hdir]
      | some x =>
        by_cases hb : is_binary_extension x
        · simp [hb, hdir]
        · by_cases hm : e.metaOk <;> simp [hb, hm, hdir]

theorem foldl_scanStep_snd (es : List FsEntry) (acc : List String × BytesMap) :
    (es.foldl scanStep acc).2 = es.foldl bytesStep acc.2 := by
  induction es generalizing acc with
  | nil => rfl
  | cons e es ih => rw [List.foldl_cons, List.foldl_cons, ih, scanStep_snd]

theorem scanStep_eq_noSkip (acc : List String × BytesMap) (e : FsEntry) :
    scanStep acc e = scanStepNoSkip acc e := by
  unfold scanStep scanStepNoSkip
  by_cases hroot : e.relPath = []
  · rw [if_pos hroot, if_pos hroot]
  · rw [if_neg hroot, if_neg hroot]
    by_cases hdir : e.isDir
    · rw [if_pos hdir, if_pos hdir]
      cases e.relPath.getLast? with
      | none => rfl
      | some n => by_cases hs : n ∈ SKIP_DIRS <;> simp [hs]
    · rw [if_neg hdir, if_neg hdir]

theorem lookupBytes_record (ext : Option String) (size : Nat) (m : BytesMap) (k : String) :
    lookupBytes (record_language ext size m) k =
      lookupBytes m k + lookupBytes (record_language ext size []) k := by
  cases ext with
  | none => simp [record_language, lookupBytes]
  | some x =>
    cases hx : extension_to_language x with
    | none => simp [record_language, hx, lookupBytes]
    | some lang =>
      simp only [record_language, hx]
      rw [lookupBytes_addBytes, lookupBytes_addBytes]
      simp [lookupBytes]

theorem lookupBytes_mergedStep (m : BytesMap) (e : FsEntry) (k : String) :
    lookupBytes (mergedStep m e) k = lookupBytes m k + lookupBytes (mergedStep [] e) k := by
  unfold mergedStep
  by_cases hdir : e.isDir
  · simp [hdir, lookupBytes]
  · rw [if_neg hdir, if_neg hdir]
    cases e.ext with
    | none =>
      by_cases hm : e.metaOk
      · simp only [hm, if_pos]
        exact lookupBytes_record none e.size m k
      · simp [hm, lookupBytes]
    | some x =>
      by_cases hb : is_binary_extension x
      · simp [hb, lookupBytes]
      · by_cases hm : e.metaOk
        · simp only [hb, hm, if_neg, if_pos, Bool.not_eq_true]
          exact lookupBytes_record (some x) e.size m k
        · simp [hb, hm, lookupBytes]

theorem lookupBytes_foldl_mergedStep (es : List FsEntry) (m : BytesMap) (k : String) :
    lookupBytes (es.foldl mergedStep m) k =
      lookupBytes m k + lookupBytes (es.foldl mergedStep []) k := by
  induction es generalizing m with
  | nil => simp [lookupBytes]
  | cons e es ih =>
    rw [List.foldl_cons, List.foldl_cons, ih, lookupBytes_mergedStep,
      ih (mergedStep [] e), Nat.add_assoc]

theorem lookupBytes_combined_roots (roots : List RootFs) (m : BytesMap) (k : String) :
    lookupBytes (roots.foldl (fun m root => root.entries.foldl mergedStep m) m) k =
      lookupBytes m k +
        (roots.map (fun root => lookupBytes (root.entries.foldl mergedStep []) k)).sum := by
  induction roots generalizing m with
  | nil => simp [lookupBytes]
  | cons r rs ih =>
    rw [List.foldl_cons, ih, List.map_cons, List.sum_cons,
      lookupBytes_foldl_mergedStep r.entries m k, Nat.add_assoc]

/-! ### Rational-arithmetic lemmas about the percentage computation -/

theorem rustRound_nonneg (q : ℚ) (h : 0 ≤ q) : rustRound q = ⌊q + 1/2⌋ :=
  if_pos h

theorem rustRound_eq_of (q : ℚ) (n : ℤ) (h0 : 0 ≤ q) (h1 : (n : ℚ) ≤ q + 1/2)
    (h2 : q + 1/2 < (n : ℚ) + 1) : rustRound q = n := by
  rw [rustRound_nonneg q h0, Int.floor_eq_iff]
  exact ⟨h1, h2⟩

theorem abs_rustRound_sub (q : ℚ) (h : 0 ≤ q) : |(rustRound q : ℚ) - q| ≤ 1/2 := by
  rw [rustRound_nonneg q h, abs_le]
  have hle := Int.floor_le (q + 1/2)
  have hgt := Int.sub_one_lt_floor (q + 1/2)
  constructor <;> linarith

theorem abs_list_sum_le (l : List ℚ) : |l.sum| ≤ (l.map (fun q => |q|)).sum := by
  induction l with
  | nil => simp
  | cons x xs ih =>
    simp only [List.sum_cons, List.map_cons]
    calc |x + xs.sum| ≤ |x| + |xs.sum| := abs_add _ _
      _ ≤ |x| + (xs.map (fun q => |q|)).sum := by linarith

theorem list_sum_map_sub (l : List α) (f g : α → ℚ) :
    (l.map (fun a => f a - g a)).sum = (l.map f).sum - (l.map g).sum := by
  induction l with
  | nil => simp
  | cons x xs ih => simp only [List.map_cons, List.sum_cons, ih]; ring

theorem list_sum_map_div (l : List α) (f : α → ℚ) (c : ℚ) :
    (l.map (fun a => f a / c)).sum = (l.map f).sum / c := by
  induction l with
  | nil => simp
  | cons x xs ih => simp only [List.map_cons, List.sum_cons, ih]; rw [add_div]

theorem cast_list_sum_int (l : List α) (f : α → ℤ) :
    (((l.map f).sum : ℤ) : ℚ) = (l.map (fun a => ((f a : ℤ) : ℚ))).sum := by
  induction l with
  | nil => simp
  | cons x xs ih => simp only [List.map_cons, List.sum_cons, Int.cast_add, ih]

theorem sum_shares_aux (m : BytesMap) (T : ℚ) :
    (m.map (fun p => ((p.2 : ℚ) / T) * 1000)).sum
      = (((m.map Prod.snd).sum : ℕ) : ℚ) / T * 1000 := by
  induction m with
  | nil => simp
  | cons p ps ih =>
    simp only [List.map_cons, List.sum_cons, ih]
    push_cast
    ring

theorem sum_shares (m : BytesMap) (h : totalBytes m ≠ 0) :
    (m.map (fun p => ((p.2 : ℚ) / (totalBytes m : ℚ)) * 1000)).sum = 1000 := by
  have hT : ((totalBytes m : ℚ)) ≠ 0 := Nat.cast_ne_zero.mpr h
  rw [sum_shares_aux m (totalBytes m)]
  show ((totalBytes m : ℕ) : ℚ) / (totalBytes m : ℚ) * 1000 = 1000
  rw [div_self hT, one_mul]

theorem pctSum_eq (m : BytesMap) (h : totalBytes m ≠ 0) :
    pctSum m
      = (m.map (fun p => (rustRound ((p.2 : ℚ) / (totalBytes m : ℚ) * 1000) : ℚ))).sum / 10 := by
  simp only [pctSum, build_language_list]
  rw [if_neg h]
  rw [((sortByStable_perm langLe (m.map (fun p =>
      ({ name := p.1, category := "language",
         percentage := (rustRound ((p.2 : ℚ) / (totalBytes m : ℚ) * 1000) : ℚ) / 10 } :
        LanguageEntry)))).map (fun e => e.percentage)).sum_eq]
  rw [List.map_map, ← list_sum_map_div]
  rfl

theorem length_build_language_list (m : BytesMap) (h : totalBytes m ≠ 0) :
    (build_language_list m).length = m.length := by
  simp only [build_language_list]
  rw [if_neg h, length_sortByStable, List.length_map]

theorem pctSum_decomp (m : BytesMap) (h : totalBytes m ≠ 0) :
    ∃ R : ℤ, pctSum m = (R : ℚ) / 10 ∧ |(R : ℚ) - 1000| ≤ (m.length : ℚ) * (1/2) := by
  have hTpos : (0 : ℚ) < (totalBytes m : ℚ) := by
    exact_mod_cast Nat.pos_of_ne_zero h
  refine ⟨(m.map (fun p => rustRound ((p.2 : ℚ) / (totalBytes m : ℚ) * 1000))).sum, ?_, ?_⟩
  · rw [pctSum_eq m h, cast_list_sum_int]
  · rw [cast_list_sum_int]
    have hsub : (m.map (fun p => ((rustRound ((p.2 : ℚ) / (totalBytes m : ℚ) * 1000) : ℤ) : ℚ))).sum
          - (1000 : ℚ)
        = (m.map (fun p => (rustRound ((p.2 : ℚ) / (totalBytes m : ℚ) * 1000) : ℚ)
            - ((p.2 : ℚ) / (totalBytes m : ℚ)) * 1000)).sum := by
      rw [list_sum_map_sub, sum_shares m h]
    rw [hsub]
    calc |(m.map (fun p => (rustRound ((p.2 : ℚ) / (totalBytes m : ℚ) * 1000) : ℚ)
            - ((p.2 : ℚ) / (totalBytes m : ℚ)) * 1000)).sum|
        ≤ ((m.map (fun p => (rustRound ((p.2 : ℚ) / (totalBytes m : ℚ) * 1000) : ℚ)
            - ((p.2 : ℚ) / (totalBytes m : ℚ)) * 1000)).map (fun q => |q|)).sum :=
          abs_list_sum_le _
      _ ≤ (m.length : ℚ) * (1/2) := by
          have hb := List.sum_le_card_nsmul
            ((m.map (fun p => (rustRound ((p.2 : ℚ) / (totalBytes m : ℚ) * 1000) : ℚ)
              - ((p.2 : ℚ) / (totalBytes m : ℚ)) * 1000)).map (fun q => |q|)) ((1:ℚ)/2) ?_
          · rw [List.length_map, List.length_map, nsmul_eq_mul] at hb
            exact hb
          · intro x hx
            rw [List.map_map] at hx
            obtain ⟨p, hp, hpx⟩ := List.mem_map.mp hx
            have hx0 : (0 : ℚ) ≤ (p.2 : ℚ) / (totalBytes m : ℚ) * 1000 := by positivity
            have habs := abs_rustRound_sub ((p.2 : ℚ) / (totalBytes m : ℚ) * 1000) hx0
            rw [← hpx]
            exact habs

/-! ### Claim theorems -/

/-- C10: if the total of classified bytes is 0, building the language list returns the
empty list; the zero-total guard returns before any percentage is computed, so no
entry, no division by zero and no undefined percentage can appear. -/
theorem c10_zero_total_empty_list (m : BytesMap) (h : totalBytes m = 0) :
    build_language_list m = [] := by
  simp only [build_language_list]
  rw [if_pos h]

theorem c10_zero_total_empty_list_witness :
    totalBytes [("Python", 0)] = 0 ∧ build_language_list [("Python", 0)] = [] :=
  ⟨rfl, c10_zero_total_empty_list [("Python", 0)] rfl⟩

/-- C6: the fixed noisy-directory list has no effect on the output of the scan: the walk
loop with the SKIP_DIRS check produces exactly the same accumulators as the loop with
the check removed, on every walker stream; and concretely a Python file nested under a
node_modules directory (when not excluded by ignore rules or the hidden filter) still
has its 42 bytes counted. -/
theorem c6_skip_dirs_no_effect :
    (∀ (entries : List FsEntry) (acc : List String × BytesMap),
      entries.foldl scanStep acc = entries.foldl scanStepNoSkip acc) ∧
    lookupBytes ((entriesUnderNodeModules.foldl scanStep ([], [])).2) "Python" = 42 := by
  constructor
  · intro entries
    induction entries with
    | nil => intro acc; rfl
    | cons e es ih =>
      intro acc
      rw [List.foldl_cons, List.foldl_cons, scanStep_eq_noSkip, ih]
  · decide

/-- C9: a file with a binary-table extension contributes nothing: deleting it from the
walker stream leaves the byte accumulator and the resulting languages list unchanged,
and the combined multi-root walk step ignores it as well. -/
theorem c9_binary_extension_never_counted (fs : RootFs) (pre post : List FsEntry)
    (e : FsEntry) (x : String) (hdir : e.isDir = false) (hx : e.ext = some x)
    (hb : is_binary_extension x = true) :
    ((pre ++ e :: post).foldl scanStep ([], [])).2 = ((pre ++ post).foldl scanStep ([], [])).2
    ∧ (scan_directory { fs with entries := pre ++ e :: post }).languages
        = (scan_directory { fs with entries := pre ++ post }).languages
    ∧ (∀ m : BytesMap, mergedStep m e = m) := by
  have hstep : ∀ m : BytesMap, bytesStep m e = m := by
    intro m
    unfold bytesStep
    by_cases hroot : e.relPath = []
    · rw [if_pos hroot]
    · rw [if_neg hroot]
      simp [hdir, hx, hb]
  have hbytes : ((pre ++ e :: post).foldl scanStep ([], ([] : BytesMap))).2
      = ((pre ++ post).foldl scanStep ([], ([] : BytesMap))).2 := by
    rw [foldl_scanStep_snd, foldl_scanStep_snd, List.foldl_append, List.foldl_append,
      List.foldl_cons, hstep]
  refine ⟨hbytes, ?_, ?_⟩
  · show build_language_list ((pre ++ e :: post).foldl scanStep ([], [])).2
      = build_language_list ((pre ++ post).foldl scanStep ([], [])).2
    rw [hbytes]
  · intro m
    unfold mergedStep
    simp [hdir, hx, hb]

theorem c9_binary_extension_never_counted_witness :
    pngEntry.isDir = false ∧ pngEntry.ext = some "png" ∧ is_binary_extension "png" = true ∧
    (((([] : List FsEntry) ++ pngEntry :: []).foldl scanStep ([], [])).2
        = ((([] : List FsEntry) ++ []).foldl scanStep ([], [])).2
      ∧ (scan_directory { emptyRootFs with entries := [] ++ pngEntry :: [] }).languages
          = (scan_directory { emptyRootFs with entries := [] ++ [] }).languages
      ∧ (∀ m : BytesMap, mergedStep m pngEntry = m)) :=
  ⟨rfl, rfl, rfl, c9_binary_extension_never_counted emptyRootFs [] [] pngEntry "png" rfl rfl rfl⟩

/-- C7: a missing, unreadable or malformed manifest makes the detector of its ecosystem the
identity on the signal map (no signal contributed, no error value), and detect_all is
unconditionally the composition of all seven detectors, so the other ecosystems still
run. -/
theorem c7_manifest_failure_isolated (fs : RootFs) (m : SigMap) :
    ((fs.packageJson = .absent ∨ fs.packageJson = .malformed) → detect_npm fs m = m) ∧
    (fs.requirementsTxt = none → detect_python fs m = m) ∧
    (fs.pyprojectToml = none → detect_pyproject fs m = m) ∧
    (fs.cargoToml = none → detect_rust fs m = m) ∧
    (fs.gemfile = none → detect_ruby fs m = m) ∧
    (fs.goMod = none → detect_go fs m = m) ∧
    ((fs.composerJson = .absent ∨ fs.composerJson = .malformed) → detect_php fs m = m) ∧
    detect_all fs m = detect_php fs (detect_go fs (detect_ruby fs (detect_rust fs
      (detect_pyproject fs (detect_python fs (detect_npm fs m)))))) := by
  refine ⟨?_, ?_, ?_, ?_, ?_, ?_, ?_, rfl⟩
  · rintro (h | h) <;> simp [detect_npm, h]
  · intro h; simp [detect_python, h]
  · intro h; simp [detect_pyproject, h]
  · intro h; simp [detect_rust, h]
  · intro h; simp [detect_ruby, h]
  · intro h; simp [detect_go, h]
  · rintro (h | h) <;> simp [detect_php, h]

theorem c7_manifest_failure_isolated_witness :
    detect_npm fsMalformedJson [("X", "tool")] = [("X", "tool")] ∧
    detect_php fsMalformedJson [("X", "tool")] = [("X", "tool")] ∧
    detect_python fsMalformedJson [("X", "tool")] = [("X", "tool")] ∧
    detect_all fsMalformedJson [("X", "tool")] = [("X", "tool")] := by
  have h := c7_manifest_failure_isolated fsMalformedJson [("X", "tool")]
  refine ⟨h.1 (Or.inr rfl), h.2.2.2.2.2.2.1 (Or.inr rfl), h.2.1 rfl, ?_⟩
  rw [h.2.2.2.2.2.2.2, h.1 (Or.inr rfl), h.2.1 rfl, h.2.2.1 rfl, h.2.2.2.1 rfl,
    h.2.2.2.2.1 rfl, h.2.2.2.2.2.1 rfl, h.2.2.2.2.2.2.1 (Or.inr rfl)]

/-- C4: the claim fails on the code: detect_all runs detect_pyproject unconditionally,
so on a root where requirements.txt is present (containing only numpy) and
pyproject.toml contains flask, the Flask signal still comes from pyproject.toml,
which the claim (and the doc comment of the detector itself) says must not be matched. -/
theorem c4_pyproject_runs_despite_requirements :
    fsPyBoth.requirementsTxt ≠ none ∧
    lookupSig (detect_all fsPyBoth []) "Flask" = some "framework" ∧
    lookupSig (detect_python fsPyBoth []) "Flask" = none := by
  refine ⟨by decide, by decide, by decide⟩

/-- C3: the claim fails on the code: build_language_list sorts only descending by
percentage with no tie-break, so two iteration orders of the same byte map (a Rust
HashMap iterates in an arbitrary, per-instance randomized order) give two different
languages lists when two languages tie, and the tied entries are not name-ascending
in one of them. -/
theorem c3_equal_percentage_order_unstable :
    ([("Python", 100), ("Rust", 100)] : BytesMap).Perm [("Rust", 100), ("Python", 100)] ∧
    build_language_list [("Python", 100), ("Rust", 100)]
      ≠ build_language_list [("Rust", 100), ("Python", 100)] ∧
    (build_language_list [("Rust", 100), ("Python", 100)]).map (fun e => e.name)
      = ["Rust", "Python"] := by
  have hr : rustRound ((500 : ℚ)) = 500 :=
    rustRound_eq_of _ 500 (by norm_num) (by norm_num) (by norm_num)
  have h1 : build_language_list [("Python", 100), ("Rust", 100)]
      = [{ name := "Python", category := "language", percentage := 50 },
         { name := "Rust", category := "language", percentage := 50 }] := by
    simp only [build_language_list, totalBytes]
    norm_num [sortByStable, insertLe, langLe, hr]
  have h2 : build_language_list [("Rust", 100), ("Python", 100)]
      = [{ name := "Rust", category := "language", percentage := 50 },
         { name := "Python", category := "language", percentage := 50 }] := by
    simp only [build_language_list, totalBytes]
    norm_num [sortByStable, insertLe, langLe, hr]
  refine ⟨by decide, ?_, ?_⟩
  · rw [h1, h2]
    simp
  · rw [h2]
    rfl

/-- C2: multi-root merging is byte-exact: the combined byte map scan_directories
builds equals the per-language sum of the per-root byte maps (for every root list and
language), the languages list is the single percentage conversion of that combined
map, and concretely 700 bytes of Python in one root plus 300 in another yield exactly
one Python entry at percentage 100. -/
theorem c2_multiroot_merge_byte_exact :
    (∀ (roots : List RootFs) (lang : String),
      lookupBytes (roots.foldl (fun m root => root.entries.foldl mergedStep m) []) lang
        = (roots.map (fun root => lookupBytes (root.entries.foldl mergedStep []) lang)).sum) ∧
    (∀ roots : List RootFs, (scan_directories roots).languages
        = build_language_list (roots.foldl (fun m root => root.entries.foldl mergedStep m) [])) ∧
    (scan_directories [rootSevenHundred, rootThreeHundred]).languages
      = [{ name := "Python", category := "language", percentage := 100 }] := by
  refine ⟨?_, fun roots => rfl, ?_⟩
  · intro roots lang
    rw [lookupBytes_combined_roots]
    simp [lookupBytes]
  · have hb : ([rootSevenHundred, rootThreeHundred].foldl
        (fun m root => root.entries.foldl mergedStep m) []) = [("Python", 1000)] := by decide
    show build_language_list ([rootSevenHundred, rootThreeHundred].foldl
        (fun m root => root.entries.foldl mergedStep m) []) = _
    rw [hb]
    have hr : rustRound ((1000 : ℚ)) = 1000 :=
      rustRound_eq_of _ 1000 (by norm_num) (by norm_num) (by norm_num)
    simp only [build_language_list, totalBytes]
    norm_num [sortByStable, insertLe, langLe, hr]

/-- C1: the claim fails on the code: a scan of four files of sizes 501, 501, 501 and
497 bytes (total 2000) gives four per-mille shares ending in an exact half, all four
round up, and the reported percentages sum to 100.2, outside [99.9, 100.1]. -/
theorem c1_counterexample_four_languages :
    0 < totalBytes ((fsFourHalves.entries.foldl scanStep ([], [])).2) ∧
    ((scan_directory fsFourHalves).languages.map (fun e => e.percentage)).sum = 501/5 ∧
    ¬ (999/10 ≤ ((scan_directory fsFourHalves).languages.map (fun e => e.percentage)).sum ∧
        ((scan_directory fsFourHalves).languages.map (fun e => e.percentage)).sum ≤ 1001/10) := by
  have hbytes : ((fsFourHalves.entries.foldl scanStep ([], [])).2 : BytesMap)
      = [("Python", 501), ("JavaScript", 501), ("Ruby", 501), ("Go", 497)] := by decide
  have hlang : (scan_directory fsFourHalves).languages
      = build_language_list [("Python", 501), ("JavaScript", 501), ("Ruby", 501), ("Go", 497)] := by
    show build_language_list ((fsFourHalves.entries.foldl scanStep ([], [])).2) = _
    rw [hbytes]
  have hr1 : rustRound ((501 : ℚ)/2) = 251 :=
    rustRound_eq_of _ 251 (by norm_num) (by norm_num) (by norm_num)
  have hr2 : rustRound ((497 : ℚ)/2) = 249 :=
    rustRound_eq_of _ 249 (by norm_num) (by norm_num) (by norm_num)
  have hsum : ((build_language_list [("Python", 501), ("JavaScript", 501), ("Ruby", 501),
      ("Go", 497)]).map (fun e => e.percentage)).sum = 501/5 := by
    show pctSum [("Python", 501), ("JavaScript", 501), ("Ruby", 501), ("Go", 497)] = 501/5
    rw [pctSum_eq _ (by decide)]
    norm_num [totalBytes, hr1, hr2]
  refine ⟨by decide, ?_, ?_⟩
  · rw [hlang, hsum]
  · rw [hlang, hsum]
    norm_num

/-- C1 amended: for every byte map with positive total, the percentage sum deviates
from 100 by at most 0.05 per reported language, and whenever the languages list has at
most three entries the sum does lie in [99.9, 100.1]; the original interval fails only
from four tied-rounding languages on. -/
theorem c1_amended_sum_bound (m : BytesMap) (h : 0 < totalBytes m) :
    |pctSum m - 100| ≤ ((build_language_list m).length : ℚ) / 20 ∧
    ((build_language_list m).length ≤ 3 → 999/10 ≤ pctSum m ∧ pctSum m ≤ 1001/10) := by
  have hne : totalBytes m ≠ 0 := Nat.pos_iff_ne_zero.mp h
  obtain ⟨R, hR, hRb⟩ := pctSum_decomp m hne
  rw [length_build_language_list m hne]
  constructor
  · rw [hR]
    have heq : (R : ℚ)/10 - 100 = ((R : ℚ) - 1000)/10 := by ring
    rw [heq, abs_div, abs_of_pos (show (0:ℚ) < 10 by norm_num)]
    linarith
  · intro hn3
    have hn3Q : ((m.length : ℚ)) ≤ 3 := by exact_mod_cast hn3
    have h32 : |(R : ℚ) - 1000| ≤ 3/2 := hRb.trans (by linarith)
    have h2 : |R - 1000| < 2 := by
      by_contra hc
      push_neg at hc
      have hcq : ((2 : ℤ) : ℚ) ≤ ((|R - 1000| : ℤ) : ℚ) := by exact_mod_cast hc
      rw [Int.cast_abs] at hcq
      push_cast at hcq
      linarith
    have hrange : (999 : ℤ) ≤ R ∧ R ≤ 1001 := by
      have := abs_lt.mp h2
      omega
    have hq1 : (999 : ℚ) ≤ (R : ℚ) := by exact_mod_cast hrange.1
    have hq2 : ((R : ℚ)) ≤ 1001 := by exact_mod_cast hrange.2
    rw [hR]
    constructor <;> linarith

theorem c1_amended_sum_bound_witness :
    0 < totalBytes [("Python", 700), ("JavaScript", 300)] ∧
    (|pctSum [("Python", 700), ("JavaScript", 300)] - 100|
        ≤ ((build_language_list [("Python", 700), ("JavaScript", 300)]).length : ℚ) / 20 ∧
      ((build_language_list [("Python", 700), ("JavaScript", 300)]).length ≤ 3 →
        999/10 ≤ pctSum [("Python", 700), ("JavaScript", 300)] ∧
        pctSum [("Python", 700), ("JavaScript", 300)] ≤ 1001/10)) :=
  ⟨by decide, c1_amended_sum_bound _ (by decide)⟩

/-- C5: last writer wins: for every display name the dependency-manifest phase writes,
the category it would assign starting from an empty map is also its category in the
final frameworks map and the final result list, whatever the earlier file-indicator
phase put there, because detect_all runs after detect_file_indicators and insert
overwrites on key collision. -/
theorem c5_manifest_category_wins (fs : RootFs) (k c : String)
    (h : lookupSig (detect_all fs []) k = some c) :
    lookupSig (detect_all fs (detect_file_indicators (check_hidden_indicators fs.existsPath
        (fs.entries.foldl scanStep ([], [])).1) ([], [])).1) k = some c ∧
    SignalEntry.mk k c ∈ (scan_directory fs).frameworks := by
  have hlast : lastVal k (allDepWrites fs) = some c := by
    have hrw := lookupSig_runWrites [] (allDepWrites fs) k
    rw [← detect_all_eq_runWrites, h] at hrw
    cases hv : lastVal k (allDepWrites fs) with
    | some v =>
      rw [hv] at hrw
      injection hrw with hvc
      rw [hvc]
    | none =>
      rw [hv] at hrw
      simp [lookupSig] at hrw
  have hfinal : lookupSig (detect_all fs (detect_file_indicators (check_hidden_indicators
      fs.existsPath (fs.entries.foldl scanStep ([], [])).1) ([], [])).1) k = some c := by
    rw [detect_all_eq_runWrites, lookupSig_runWrites, hlast]
  refine ⟨hfinal, ?_⟩
  have hmem := mem_of_lookupSig _ _ _ hfinal
  show SignalEntry.mk k c ∈ sortByStable sigLe
    ((detect_all fs (detect_file_indicators (check_hidden_indicators fs.existsPath
      (fs.entries.foldl scanStep ([], [])).1) ([], [])).1).map
      (fun p => { name := p.1, category := p.2 }))
  rw [mem_sortByStable]
  exact List.mem_map.mpr ⟨(k, c), hmem, rfl⟩

theorem c5_manifest_category_wins_witness :
    lookupSig (detect_all fsJestBoth []) "Jest" = some "tool" ∧
    (lookupSig (detect_all fsJestBoth (detect_file_indicators (check_hidden_indicators
        fsJestBoth.existsPath (fsJestBoth.entries.foldl scanStep ([], [])).1) ([], [])).1)
        "Jest" = some "tool" ∧
      SignalEntry.mk "Jest" "tool" ∈ (scan_directory fsJestBoth).frameworks) :=
  ⟨by decide, c5_manifest_category_wins fsJestBoth "Jest" "tool" (by decide)⟩

/-- C8: for every root where the hidden path .github/workflows exists on disk, the
hidden-indicator recovery injects it into the top-level name list (whatever the walker
yielded), the indicator table maps it to GitHub Actions with category infrastructure,
and the infrastructure_signals of the scan therefore contain that entry. -/
theorem c8_hidden_workflows_infra_signal (fs : RootFs)
    (h : fs.existsPath ".github/workflows" = true) :
    SignalEntry.mk "GitHub Actions" "infrastructure"
      ∈ (scan_directory fs).infrastructure_signals := by
  have hmemn : ".github/workflows" ∈ check_hidden_indicators fs.existsPath
      (fs.entries.foldl scanStep ([], [])).1 := mem_check_hidden_workflows _ _ h
  have hrows : ∀ t ∈ FRAMEWORK_INDICATORS, t.2.1 = "GitHub Actions" →
      t.2.2 = "infrastructure" := by decide
  have hlook : lookupSig ((detect_file_indicators (check_hidden_indicators fs.existsPath
      (fs.entries.foldl scanStep ([], [])).1) ([], [])).2) "GitHub Actions"
      = some "infrastructure" := by
    rw [detect_file_indicators_eq_indicatorFold]
    refine indicatorFold_infra_lookup FRAMEWORK_INDICATORS _ _ ".github/workflows"
      "GitHub Actions" "infrastructure" (by decide) hmemn rfl ?_
    intro i2 c2 hm
    exact hrows (i2, "GitHub Actions", c2) hm rfl
  have hmem := mem_of_lookupSig _ _ _ hlook
  show SignalEntry.mk "GitHub Actions" "infrastructure" ∈ sortByStable sigLe
    (((detect_file_indicators (check_hidden_indicators fs.existsPath
      (fs.entries.foldl scanStep ([], [])).1) ([], [])).2).map
      (fun p => { name := p.1, category := p.2 }))
  rw [mem_sortByStable]
  exact List.mem_map.mpr ⟨("GitHub Actions", "infrastructure"), hmem, rfl⟩

theorem c8_hidden_workflows_infra_signal_witness :
    fsWithWorkflows.existsPath ".github/workflows" = true ∧
    SignalEntry.mk "GitHub Actions" "infrastructure"
      ∈ (scan_directory fsWithWorkflows).infrastructure_signals :=
  ⟨rfl, c8_hidden_workflows_infra_signal fsWithWorkflows rfl⟩
